import Mathlib

/-!
Shallow embedding of `couchdbkit/ext/django/schema.py`.

The file under verification is a Django compatibility shim: it defines
`Options` (a duck-typed copy of Django model metadata), `PKField` (a
primary-key stand-in), the `DocumentMeta` metaclass (which attaches an
`Options` instance as `_meta` and registers the created class in a
per-app-label registry), the `Document` base class, and a block of plain
re-exports of names from the wrapped `couchdbkit.schema` library.

Python values appearing as attribute values are modelled by `PyVal`;
Python dictionaries (`Meta.__dict__`) by association lists; mutable
attribute state by explicit record passing; exceptions by `Except`.
String primitives used by the source (`startswith`, `lower`, `split`,
the `\.models$` suffix strip) are implemented over `String.data` so that
all definitions evaluate inside the kernel.
-/

/-- A Python attribute value: `None`, a string, an opaque object
(identified by a numeric id), or the lazy proxy object produced by
`django.utils.translation.string_concat(v, suffix)`. -/
inductive PyVal where
  | pynone
  | str (s : String)
  | obj (id : Nat)
  | lazyConcat (v : PyVal) (suffix : String)
deriving Repr, DecidableEq

/-- Model of Python `str(value)`: strings print themselves, `None` prints
`"None"`, objects print an opaque token, and the lazy concat proxy forces
its argument and appends the suffix. -/
def pyStr : PyVal → String
  | .pynone => "None"
  | .str s => s
  | .obj n => "object-" ++ toString n
  | .lazyConcat v suf => pyStr v ++ suf

/-- Lookup in an association list modelling a Python dict (first match). -/
def alistLookup (l : List (String × PyVal)) (k : String) : Option PyVal :=
  (l.find? (fun p => p.fst == k)).map Prod.snd

/-- `dict.pop(k)` / `del dict[k]`: remove the entry with key `k`. -/
def popKey (l : List (String × PyVal)) (k : String) : List (String × PyVal) :=
  l.filter (fun p => p.fst != k)

/-- A `class Meta` object as seen by `contribute_to_class` and
`DocumentMeta.__new__`: its own `__dict__` plus the attributes that are
only reachable through `getattr` (inherited from its bases). -/
structure MetaObj where
  ownDict : List (String × PyVal)
  inherited : List (String × PyVal)
deriving Repr, DecidableEq

/-- Python `getattr(meta, k, None)` (as an `Option`): the own `__dict__`
is consulted before inherited attributes. -/
def MetaObj.getattr (m : MetaObj) (k : String) : Option PyVal :=
  (alistLookup m.ownDict k).orElse (fun _ => alistLookup m.inherited k)

/-- Python `hasattr(meta, k)`. -/
def MetaObj.hasattr (m : MetaObj) (k : String) : Bool :=
  (m.getattr k).isSome

/-- `str.startswith(pre)` over the character list. -/
def strStartsWith (s pre : String) : Bool :=
  pre.data.isPrefixOf s.data

/-- `str.endswith(suf)` over the character list. -/
def strEndsWith (s suf : String) : Bool :=
  suf.data.isSuffixOf s.data

/-- `str.lower()` over the character list. -/
def strToLower (s : String) : String :=
  String.mk (s.data.map Char.toLower)

/-- Drop the last `n` characters of a string. -/
def strDropRight (s : String) (n : Nat) : String :=
  String.mk (s.data.take (s.data.length - n))

/-- `re.sub('\.models$', '', s)`: strip a trailing `.models` if present
(the pattern is anchored, so at most one suffix occurrence is removed). -/
def stripModelsSuffix (s : String) : String :=
  if strEndsWith s ".models" then strDropRight s 7 else s

/-- `s.split('.')` on the character list: splitting is total and the
result is always nonempty, matching Python list semantics. -/
def splitCharsOnDot : List Char → List (List Char)
  | [] => [[]]
  | c :: cs =>
    let r := splitCharsOnDot cs
    if c = '.' then [] :: r
    else
      match r with
      | [] => [[c]]
      | g :: gs => (c :: g) :: gs

/-- Python `module_name.split('.')`. -/
def splitOnDot (s : String) : List String :=
  (splitCharsOnDot s.data).map String.mk

/-- Python `l[-2]`: the second-to-last element; raises `IndexError`
(modelled by `none`) when the list has fewer than two elements. -/
def pyIndexFromEnd2 (l : List String) : Option String :=
  if 2 ≤ l.length then l.get? (l.length - 2) else none

/-- `PKField` from the source: a stand-in primary-key field whose `name`
and `attname` are the class attributes `'pk'`. -/
structure PKField where
  name : String := "pk"
  attname : String := "pk"
deriving Repr, DecidableEq

/-- `PKField.to_python(value)` returns `str(value)`. -/
def PKField.to_python ( _self : PKField) (value : PyVal) : String :=
  pyStr value

/-- An object exposing a `pk` attribute, as consumed by
`PKField.value_to_string`. -/
structure PyObjWithPk where
  pk : PyVal
deriving Repr, DecidableEq

/-- `PKField.value_to_string(obj)` returns `str(obj.pk)`. -/
def PKField.value_to_string ( _self : PKField) (obj : PyObjWithPk) : String :=
  pyStr obj.pk

/-- The identity of a Python class as consumed by
`Options.contribute_to_class`: its `__name__` and `__module__`. -/
structure ClsTok where
  name : String
  module : String
deriving Repr, DecidableEq

/-- The mutable attribute state of an `Options` instance (the fields
touched by `__init__` and `contribute_to_class`; bookkeeping fields the
shim initialises but never reads again — `admin`, `parents`, caches,
`db_tablespace` — are omitted). `Option` marks attributes that may be
absent (`ordering` and `pk` are not set by `__init__`). -/
structure OptionsRec where
  meta : Option MetaObj
  appLabel : PyVal
  objectName : Option String
  moduleName : Option String
  verboseName : PyVal
  verboseNamePlural : PyVal
  dbTable : PyVal
  ordering : Option PyVal
  pk : Option PKField
  installed : Option Bool
  model : Option ClsTok
  concreteModel : Option ClsTok
  abstract : Bool
  managed : Bool
  localFields : List (String × PyVal)
deriving Repr, DecidableEq

/-- `Options.__init__(meta, app_label)`. -/
def optionsInit (meta : Option MetaObj) (appLabel : PyVal) : OptionsRec :=
  { meta := meta
    appLabel := appLabel
    objectName := none
    moduleName := none
    verboseName := PyVal.pynone
    verboseNamePlural := PyVal.pynone
    dbTable := PyVal.str ""
    ordering := none
    pk := none
    installed := none
    model := none
    concreteModel := none
    abstract := false
    managed := true
    localFields := [] }

/-- The `DEFAULT_NAMES` tuple from the source. -/
def DEFAULT_NAMES : List String :=
  ["verbose_name", "db_table", "ordering", "app_label"]

/-- `setattr(self, attr_name, v)` for the four `DEFAULT_NAMES`
attributes (`contribute_to_class` calls it with no other names). -/
def OptionsRec.setOption (o : OptionsRec) (attr : String) (v : PyVal) : OptionsRec :=
  if attr == "verbose_name" then { o with verboseName := v }
  else if attr == "db_table" then { o with dbTable := v }
  else if attr == "ordering" then { o with ordering := some v }
  else if attr == "app_label" then { o with appLabel := v }
  else o

/-- Read back the attribute set by `OptionsRec.setOption`. -/
def OptionsRec.getOption (o : OptionsRec) (attr : String) : Option PyVal :=
  if attr == "verbose_name" then some o.verboseName
  else if attr == "db_table" then some o.dbTable
  else if attr == "ordering" then o.ordering
  else if attr == "app_label" then some o.appLabel
  else none

/-- One iteration of the `for attr_name in DEFAULT_NAMES` loop of
`contribute_to_class`: if the attribute is in the remaining `meta_attrs`
it is popped and set; otherwise, if `hasattr(self.meta, attr_name)`, it
is set from `getattr` without popping. -/
def contribStep (m : MetaObj) (acc : OptionsRec × List (String × PyVal))
    (attrName : String) : OptionsRec × List (String × PyVal) :=
  match alistLookup acc.2 attrName with
  | some v => (acc.1.setOption attrName v, popKey acc.2 attrName)
  | none =>
    match m.getattr attrName with
    | some v => (acc.1.setOption attrName v, acc.2)
    | none => acc

/-- The head of `contribute_to_class` (lines before the `if self.meta`
branch): set `pk`, `installed`, and the default values of the options. -/
def contribInitDefaults (gvn : String → String) (installedApps : List String)
    (o : OptionsRec) (cls : ClsTok) : OptionsRec :=
  { o with
    pk := some {}
    installed := some (installedApps.contains (stripModelsSuffix cls.module))
    objectName := some cls.name
    moduleName := some (strToLower cls.name)
    verboseName := PyVal.str (gvn cls.name)
    model := some cls
    concreteModel := some cls }

/-- The `if self.meta:` branch of `contribute_to_class`: drop private
attributes, apply the `DEFAULT_NAMES` overrides, pop
`verbose_name_plural`, and raise `TypeError` on leftovers; ends with
`del self.meta`. -/
def contribApplyMeta (m : MetaObj) (o1 : OptionsRec) : Except String OptionsRec :=
  let metaAttrs := m.ownDict.filter (fun p => !(strStartsWith p.fst "_"))
  let acc := DEFAULT_NAMES.foldl (contribStep m) (o1, metaAttrs)
  let vnp := alistLookup acc.2 "verbose_name_plural"
  let rest := popKey acc.2 "verbose_name_plural"
  let o2 : OptionsRec :=
    { acc.1 with
      verboseNamePlural :=
        match vnp with
        | some v => v
        | none => PyVal.lazyConcat acc.1.verboseName "s" }
  if rest.isEmpty then
    Except.ok { o2 with meta := none }
  else
    Except.error ("class Meta got invalid attribute(s): " ++
      String.intercalate "," (rest.map Prod.fst))

/-- `Options.contribute_to_class(cls, name)` (the `cls._meta = self`
attachment is performed by the caller, which keeps the returned record).
Raising `TypeError` is modelled by `Except.error`. -/
def contributeToClass (gvn : String → String) (installedApps : List String)
    (o : OptionsRec) (cls : ClsTok) : Except String OptionsRec :=
  let o1 := contribInitDefaults gvn installedApps o cls
  match o.meta with
  | some m => contribApplyMeta m o1
  | none =>
    Except.ok { o1 with verboseNamePlural := PyVal.lazyConcat o1.verboseName "s", meta := none }

/-- A field object as stored in `Options.local_fields`: its `name`, its
`attname` (absent models the `AttributeError` branch of the map
builders), and the `many_to_many` flag read by `get_field`. -/
structure FieldRec where
  name : String
  attname : Option String
  manyToMany : Bool
deriving Repr, DecidableEq

/-- A Python dict keyed by field name, as a function. -/
def FieldMap : Type := String → Option FieldRec

/-- Dict assignment `res[k] = v`. -/
def fmInsert (m : FieldMap) (k : String) (v : FieldRec) : FieldMap :=
  fun q => if q == k then some v else m q

/-- One loop iteration of the map builders: `res[field.name] = field`,
then `res[field.attname] = field` unless `attname` raises
`AttributeError`. -/
def fieldMapStep (res : FieldMap) (f : FieldRec) : FieldMap :=
  let res := fmInsert res f.name f
  match f.attname with
  | some a => fmInsert res a f
  | none => res

/-- The body shared by `_forward_fields_map` and `fields_map`: walk the
fields, keying each by `name` and (when present) by `attname`; later
entries overwrite earlier ones. -/
def buildFieldsMap (fields : List FieldRec) : FieldMap :=
  fields.foldl fieldMapStep (fun _ => none)

/-- The state of an `Options` instance as consulted by `get_field`: the
object name (for error messages), `local_fields`, and the two
`cached_property` slots, empty until first access. -/
structure OptState where
  objectName : String
  localFields : List FieldRec
  forwardCache : Option FieldMap
  fieldsMapCache : Option FieldMap

/-- `Options._get_fields(**kwargs)`: ignores its keyword arguments and
returns `local_fields`. -/
def optGetFields (st : OptState) : List FieldRec :=
  st.localFields

/-- Access of the `cached_property` `Options._forward_fields_map`:
compute from `_get_fields(reverse=False)` on first access and store. -/
def forwardFieldsMapGet (st : OptState) : FieldMap × OptState :=
  match st.forwardCache with
  | some m => (m, st)
  | none =>
    let m := buildFieldsMap (optGetFields st)
    (m, { st with forwardCache := some m })

/-- Access of the `cached_property` `Options.fields_map`: compute from
`_get_fields(forward=False, include_hidden=True)` on first access and
store. -/
def fieldsMapGet (st : OptState) : FieldMap × OptState :=
  match st.fieldsMapCache with
  | some m => (m, st)
  | none =>
    let m := buildFieldsMap (optGetFields st)
    (m, { st with fieldsMapCache := some m })

/-- `Options.get_field(field_name, many_to_many)`; `modelsReady` is
`self.apps.models_ready`; `FieldDoesNotExist` is modelled by
`Except.error`. -/
def getField (modelsReady : Bool) (st : OptState) (fieldName : String)
    (manyToMany : Option Bool) : Except String FieldRec × OptState :=
  let m2mInKwargs := manyToMany.isSome
  let (fm, st1) := forwardFieldsMapGet st
  match fm fieldName with
  | some field =>
    if manyToMany == some false && field.manyToMany then
      (Except.error (st1.objectName ++ " has no field named " ++ fieldName), st1)
    else
      (Except.ok field, st1)
  | none =>
    if !modelsReady then
      (Except.error (st1.objectName ++ " has no field named " ++ fieldName ++
        ". The app cache is not ready yet, so if this is an auto-created related field, it will not be available yet."), st1)
    else if m2mInKwargs then
      (Except.error (st1.objectName ++ " has no field named " ++ fieldName), st1)
    else
      let (fm2, st2) := fieldsMapGet st1
      match fm2 fieldName with
      | some field => (Except.ok field, st2)
      | none =>
        (Except.error (st2.objectName ++ " has no field named " ++ fieldName), st2)

/-- The input of `DocumentMeta.__new__` seen through the shim: the class
name, for each base whether `isinstance(base, DocumentMeta)` holds, the
`Meta` found in `attrs` (if any; a class object is always truthy), the
`Meta` reachable by `getattr(new_class, 'Meta')` when `attrs` has none
(inherited from the bases), and the defining module name. -/
structure ClassInput where
  name : String
  basesMeta : List Bool
  attrsMeta : Option MetaObj
  inheritedMeta : Option MetaObj
  module : String
deriving Repr, DecidableEq

/-- The `Meta` object `DocumentMeta.__new__` works with: `attrs['Meta']`
when present (a class object is truthy), else
`getattr(new_class, 'Meta', None)`. -/
def chosenMeta (inp : ClassInput) : Option MetaObj :=
  match inp.attrsMeta with
  | some m => some m
  | none => inp.inheritedMeta

/-- `getattr(meta, 'app_label', None)` for the chosen `Meta` (with the
attribute default `None` made explicit). -/
def metaAppLabel (inp : ClassInput) : PyVal :=
  match chosenMeta inp with
  | some m => (m.getattr "app_label").getD PyVal.pynone
  | none => PyVal.pynone

/-- Does the chosen `Meta` explicitly bind `app_label` to `None`?
This is the case that distinguishes an absent attribute from a `None`
one: both make `DocumentMeta.__new__` fall back to the module path, but
only the explicit binding is copied back by `contribute_to_class`. -/
def metaBindsAppLabelNone (inp : ClassInput) : Bool :=
  match chosenMeta inp with
  | some m => m.getattr "app_label" == some PyVal.pynone
  | none => false

/-- The registry interface of `couchdbkit.ext.django.loading` used by
`DocumentMeta.__new__` (`register_schema` and `get_schema`), abstract in
the registry representation and the class representation. -/
structure LoadingApi (R C : Type) where
  registerSchema : R → PyVal → C → R
  getSchema : R → PyVal → String → C

/-- What one run of `DocumentMeta.__new__` produced: the returned value,
the registry afterwards, the `register_schema` calls made (label and
argument), the class built by `super().__new__`, the `Options` record
attached as `_meta` (if any), and the resolved app label (if any). -/
structure MetaNewOut (R C : Type) where
  result : C
  registry : R
  registrations : List (PyVal × C)
  newClass : C
  attachedMeta : Option OptionsRec
  appLabel : Option PyVal

/-- `DocumentMeta.__new__(cls, name, bases, attrs)`. `superNew` stands
for `super().__new__` (the wrapped `SchemaProperties` builder), `L` for
the loading registry, `reg` for its current state. A `TypeError` from
`contribute_to_class` or an `IndexError` from the `[-2]` module-path
indexing aborts the run before registration. -/
def documentMetaNew {R C : Type} (gvn : String → String) (installedApps : List String)
    (L : LoadingApi R C) (superNew : ClassInput → C) (reg : R) (inp : ClassInput) :
    Except String (MetaNewOut R C) :=
  if inp.basesMeta.any (fun b => b) = false then
    let nc := superNew inp
    Except.ok
      { result := nc, registry := reg, registrations := [], newClass := nc,
        attachedMeta := none, appLabel := none }
  else
    let nc := superNew inp
    let meta := chosenMeta inp
    let appLabelE : Except String PyVal :=
      if metaAppLabel inp = PyVal.pynone then
        match pyIndexFromEnd2 (splitOnDot inp.module) with
        | some s => Except.ok (PyVal.str s)
        | none => Except.error "IndexError: list index out of range"
      else
        Except.ok (metaAppLabel inp)
    match appLabelE with
    | Except.error e => Except.error e
    | Except.ok appLabel =>
      match contributeToClass gvn installedApps (optionsInit meta appLabel)
          { name := inp.name, module := inp.module } with
      | Except.error e => Except.error e
      | Except.ok opts =>
        let reg2 := L.registerSchema reg appLabel nc
        Except.ok
          { result := L.getSchema reg2 appLabel inp.name, registry := reg2,
            registrations := [(appLabel, nc)], newClass := nc,
            attachedMeta := some opts, appLabel := some appLabel }

/-- The metaclasses relevant to this module: plain `type`, the wrapped
library metaclass `schema.SchemaProperties`, and `DocumentMeta` (which
the source declares as a subclass of `schema.SchemaProperties`). -/
inductive PyMetaclass where
  | pytype
  | schemaProperties
  | documentMeta
deriving Repr, DecidableEq

/-- `isinstance(cls, DocumentMeta)` for a class whose metaclass is
known: only `DocumentMeta` itself qualifies, since neither `type` nor
`SchemaProperties` is a subclass of `DocumentMeta`. -/
def PyMetaclass.isDocumentMetaInstance : PyMetaclass → Bool
  | .documentMeta => true
  | _ => false

/-- A Python 2 class statement as far as metaclass selection goes: the
class name, the names and metaclasses of its bases, and the
`__metaclass__` attribute of the class body, if any. -/
structure PyClassDecl where
  name : String
  baseNames : List String
  baseMetaclasses : List PyMetaclass
  explicitMetaclass : Option PyMetaclass
deriving Repr, DecidableEq

/-- Python 2 metaclass selection: `__metaclass__` from the class body if
present, otherwise the metaclass of the first base, otherwise `type`. -/
def effectiveMetaclass (d : PyClassDecl) : PyMetaclass :=
  match d.explicitMetaclass with
  | some m => m
  | none =>
    match d.baseMetaclasses with
    | m :: _ => m
    | [] => PyMetaclass.pytype

/-- Modelled from the spec: the wrapped schema library (explicitly out
of scope, re-exported unchanged) provides the base class
`schema.Document`, created by the library metaclass
`schema.SchemaProperties` — not by `DocumentMeta`. -/
def schemaDocumentDecl : PyClassDecl :=
  { name := "Document"
    baseNames := ["DocumentSchema"]
    baseMetaclasses := [PyMetaclass.schemaProperties]
    explicitMetaclass := some PyMetaclass.schemaProperties }

/-- The `class Document(schema.Document)` statement of the source, with
its `__metaclass__ = DocumentMeta` body attribute. -/
def djangoDocumentDecl : PyClassDecl :=
  { name := "Document"
    baseNames := ["schema.Document"]
    baseMetaclasses := [effectiveMetaclass schemaDocumentDecl]
    explicitMetaclass := some PyMetaclass.documentMeta }

/-- A class statement `class S(Document)` for a user document subclass:
no explicit `__metaclass__`, the single base being the shim `Document`. -/
def documentSubclassDecl (subName : String) : PyClassDecl :=
  { name := subName
    baseNames := ["Document"]
    baseMetaclasses := [effectiveMetaclass djangoDocumentDecl]
    explicitMetaclass := none }

/-- The names bound by the `couchdbkit.schema` module that the source
re-exports, with an abstract carrier for the objects themselves. -/
structure SchemaModule (α : Type) where
  DocumentSchema : α
  Property : α
  StringProperty : α
  IntegerProperty : α
  DecimalProperty : α
  BooleanProperty : α
  FloatProperty : α
  DateTimeProperty : α
  DateProperty : α
  TimeProperty : α
  SchemaProperty : α
  SchemaListProperty : α
  ListProperty : α
  DictProperty : α
  StringDictProperty : α
  StringListProperty : α
  SchemaDictProperty : α
  SetProperty : α
  dict_to_json : α
  list_to_json : α
  value_to_json : α
  value_to_python : α
  dict_to_python : α
  list_to_python : α
  convert_property : α
deriving Repr, DecidableEq

/-- The module-level assignment block at the end of the source
(`DocumentSchema = schema.DocumentSchema`, the property classes, and the
utility functions), as the bindings it leaves in this module. -/
def moduleExports {α : Type} (schema : SchemaModule α) : SchemaModule α :=
  { DocumentSchema := schema.DocumentSchema
    Property := schema.Property
    StringProperty := schema.StringProperty
    IntegerProperty := schema.IntegerProperty
    DecimalProperty := schema.DecimalProperty
    BooleanProperty := schema.BooleanProperty
    FloatProperty := schema.FloatProperty
    DateTimeProperty := schema.DateTimeProperty
    DateProperty := schema.DateProperty
    TimeProperty := schema.TimeProperty
    SchemaProperty := schema.SchemaProperty
    SchemaListProperty := schema.SchemaListProperty
    ListProperty := schema.ListProperty
    DictProperty := schema.DictProperty
    StringDictProperty := schema.StringDictProperty
    StringListProperty := schema.StringListProperty
    SchemaDictProperty := schema.SchemaDictProperty
    SetProperty := schema.SetProperty
    dict_to_json := schema.dict_to_json
    list_to_json := schema.list_to_json
    value_to_json := schema.value_to_json
    value_to_python := schema.value_to_python
    dict_to_python := schema.dict_to_python
    list_to_python := schema.list_to_python
    convert_property := schema.convert_property }

/-- The class-level state read and written by `Document.get_db`:
`cls._meta.app_label` and the `_db` class attribute (`none` models both
an unset and a `None` attribute, which the code treats alike). -/
structure DocClassState (DB : Type) where
  appLabel : String
  db : Option DB

/-- `Document.get_db()`: `resolver` is `loading.get_db`; the returned
list records the app labels for which the registry was consulted. -/
def documentGetDb {DB : Type} (resolver : String → DB) (st : DocClassState DB) :
    DB × DocClassState DB × List String :=
  match st.db with
  | some d => (d, st, [])
  | none =>
    let d := resolver st.appLabel
    (d, { st with db := some d }, [st.appLabel])

/-- A concrete registry for witnesses and counterexamples: the log of
registrations, with a `get_schema` that ignores the registry — the
registry maintained by the loading module is free to answer with an
object other than the one just registered. -/
def exLoading : LoadingApi (List (PyVal × Nat)) Nat :=
  { registerSchema := fun r l c => r ++ [(l, c)]
    getSchema := fun _ _ _ => 99 }

/-- A concrete `super().__new__` for witnesses: every built class is the
token `7`. -/
def exSuperNew : ClassInput → Nat := fun _ => 7

/-- A document class creation with no `Meta`, for witnesses. -/
def exInpPlain : ClassInput :=
  { name := "MyDoc", basesMeta := [true], attrsMeta := none,
    inheritedMeta := none, module := "myapp.models" }

/-- A document class creation whose `Meta` explicitly binds
`app_label = None`, the input on which the Options app label and the
registration app label disagree. -/
def exInpMetaNone : ClassInput :=
  { name := "MyDoc", basesMeta := [true],
    attrsMeta := some { ownDict := [("app_label", PyVal.pynone)], inherited := [] },
    inheritedMeta := none, module := "myapp.models" }

/-- A concrete `Meta` with one valid override and one private
attribute, for witnesses. -/
def exMetaDb : MetaObj :=
  { ownDict := [("db_table", PyVal.str "tbl"), ("_private", PyVal.obj 1)], inherited := [] }

/-- A concrete `Meta` with an invalid attribute, for witnesses. -/
def exMetaJunk : MetaObj :=
  { ownDict := [("junk", PyVal.obj 1)], inherited := [] }

/-- A concrete `Meta` with only a private attribute, for witnesses. -/
def exMetaPrivate : MetaObj :=
  { ownDict := [("_x", PyVal.obj 2)], inherited := [] }

/-- A concrete class identity, for witnesses. -/
def exCls : ClsTok :=
  { name := "MyDoc", module := "myapp.models" }

/-- A concrete `Options` field state with one local field and cold
caches, for witnesses. -/
def exOptState : OptState :=
  { objectName := "MyDoc"
    localFields := [{ name := "alpha", attname := some "alpha_id", manyToMany := false }]
    forwardCache := none
    fieldsMapCache := none }

/-- The creation of the shim `Document` class itself: its single base
is the wrapped library document class, which is not an instance of
`DocumentMeta`. -/
def exDocumentCreateInput : ClassInput :=
  { name := "Document"
    basesMeta := [(effectiveMetaclass schemaDocumentDecl).isDocumentMetaInstance]
    attrsMeta := none
    inheritedMeta := none
    module := "couchdbkit.ext.django.schema" }

/-! ## Lemmas about the association-list dictionary model -/

theorem alistLookup_eq_none {l : List (String × PyVal)} {k : String} :
    alistLookup l k = none ↔ ∀ p ∈ l, p.fst ≠ k := by
  simp [alistLookup, List.find?_eq_none]

theorem popKey_of_lookup_none {l : List (String × PyVal)} {k : String}
    (h : alistLookup l k = none) : popKey l k = l := by
  rw [alistLookup_eq_none] at h
  refine List.filter_eq_self.mpr ?_
  intro p hp
  simpa [bne] using h p hp

theorem alistLookup_filter {q : String → Bool} {k : String} (hq : q k = true)
    (l : List (String × PyVal)) :
    alistLookup (l.filter (fun p => q p.fst)) k = alistLookup l k := by
  induction l with
  | nil => rfl
  | cons hd tl ih =>
    rw [List.filter_cons]
    by_cases hpk : hd.fst = k
    · have hqh : q hd.fst = true := hpk ▸ hq
      have hbeq : (hd.fst == k) = true := beq_iff_eq.mpr hpk
      simp only [if_pos hqh]
      unfold alistLookup
      simp only [List.find?_cons, hbeq]
    · have hbeq : (hd.fst == k) = false := by simp [hpk]
      by_cases hqh : q hd.fst = true
      · simp only [if_pos hqh]
        unfold alistLookup at ih ⊢
        simp only [List.find?_cons, hbeq]
        exact ih
      · simp only [if_neg hqh]
        unfold alistLookup at ih ⊢
        simp only [List.find?_cons, hbeq]
        exact ih

theorem alistLookup_popKey {l : List (String × PyVal)} {k j : String} (h : k ≠ j) :
    alistLookup (popKey l j) k = alistLookup l k := by
  have hkj : (fun s => s != j) k = true := by simp [bne, h]
  exact alistLookup_filter (q := fun s => s != j) hkj l

theorem alistLookup_filter_none {l : List (String × PyVal)} {k : String}
    (q : String × PyVal → Bool) (h : alistLookup l k = none) :
    alistLookup (l.filter q) k = none := by
  rw [alistLookup_eq_none] at h ⊢
  intro p hp
  exact h p (List.mem_of_mem_filter hp)

theorem metaObj_getattr_none {m : MetaObj} {k : String} (h : m.getattr k = none) :
    alistLookup m.ownDict k = none ∧ alistLookup m.inherited k = none := by
  unfold MetaObj.getattr at h
  cases h1 : alistLookup m.ownDict k with
  | some v => rw [h1] at h; simp [Option.orElse] at h
  | none => rw [h1] at h; simpa [Option.orElse] using h

/-! ## Lemmas about the `DEFAULT_NAMES` loop of `contribute_to_class` -/

theorem setOption_pk (o : OptionsRec) (a : String) (v : PyVal) :
    (o.setOption a v).pk = o.pk := by
  unfold OptionsRec.setOption
  split_ifs <;> rfl

theorem setOption_objectName (o : OptionsRec) (a : String) (v : PyVal) :
    (o.setOption a v).objectName = o.objectName := by
  unfold OptionsRec.setOption
  split_ifs <;> rfl

theorem setOption_moduleName (o : OptionsRec) (a : String) (v : PyVal) :
    (o.setOption a v).moduleName = o.moduleName := by
  unfold OptionsRec.setOption
  split_ifs <;> rfl

theorem contribStep_snd (m : MetaObj) (acc : OptionsRec × List (String × PyVal))
    (a : String) : (contribStep m acc a).2 = popKey acc.2 a := by
  unfold contribStep
  cases h : alistLookup acc.2 a with
  | some v => rfl
  | none =>
    cases h2 : m.getattr a <;> simp [popKey_of_lookup_none h]

theorem contribStep_fst_pk (m : MetaObj) (acc : OptionsRec × List (String × PyVal))
    (a : String) : ((contribStep m acc a).1).pk = acc.1.pk := by
  unfold contribStep
  cases h : alistLookup acc.2 a with
  | some v => simp [setOption_pk]
  | none => cases h2 : m.getattr a <;> simp [setOption_pk]

theorem foldl_contribStep_pk (m : MetaObj) (names : List String)
    (acc : OptionsRec × List (String × PyVal)) :
    ((names.foldl (contribStep m) acc).1).pk = acc.1.pk := by
  induction names generalizing acc with
  | nil => rfl
  | cons a names ih => rw [List.foldl_cons, ih, contribStep_fst_pk]

theorem foldl_contribStep_snd (m : MetaObj) (names : List String)
    (acc : OptionsRec × List (String × PyVal)) :
    (names.foldl (contribStep m) acc).2 = names.foldl popKey acc.2 := by
  induction names generalizing acc with
  | nil => rfl
  | cons a names ih =>
    rw [List.foldl_cons, List.foldl_cons, ih, contribStep_snd]

theorem foldl_popKey_eq_filter (names : List String) (l : List (String × PyVal)) :
    names.foldl popKey l = l.filter (fun p => !(names.contains p.fst)) := by
  induction names generalizing l with
  | nil => simp
  | cons a names ih =>
    rw [List.foldl_cons, ih]
    unfold popKey
    rw [List.filter_filter]
    refine List.filter_congr ?_
    intro p _
    simp only [List.contains_cons]
    cases h1 : p.fst == a <;> cases h2 : names.contains p.fst <;> simp [bne, h1, h2]

theorem setOption_verboseName_ne {o : OptionsRec} {b : String} (v : PyVal)
    (h : b ≠ "verbose_name") : (o.setOption b v).verboseName = o.verboseName := by
  unfold OptionsRec.setOption
  split_ifs with h1 h2 h3 h4 <;> first | rfl | exact absurd (beq_iff_eq.mp h1) h

theorem setOption_dbTable_ne {o : OptionsRec} {b : String} (v : PyVal)
    (h : b ≠ "db_table") : (o.setOption b v).dbTable = o.dbTable := by
  unfold OptionsRec.setOption
  split_ifs with h1 h2 h3 h4 <;> first | rfl | exact absurd (beq_iff_eq.mp h2) h

theorem setOption_ordering_ne {o : OptionsRec} {b : String} (v : PyVal)
    (h : b ≠ "ordering") : (o.setOption b v).ordering = o.ordering := by
  unfold OptionsRec.setOption
  split_ifs with h1 h2 h3 h4 <;> first | rfl | exact absurd (beq_iff_eq.mp h3) h

theorem setOption_appLabel_ne {o : OptionsRec} {b : String} (v : PyVal)
    (h : b ≠ "app_label") : (o.setOption b v).appLabel = o.appLabel := by
  unfold OptionsRec.setOption
  split_ifs with h1 h2 h3 h4 <;> first | rfl | exact absurd (beq_iff_eq.mp h4) h

theorem getOption_setOption_self {o : OptionsRec} {a : String}
    (ha : a ∈ DEFAULT_NAMES) (v : PyVal) :
    (o.setOption a v).getOption a = some v := by
  simp only [DEFAULT_NAMES, List.mem_cons, List.not_mem_nil, or_false] at ha
  rcases ha with rfl | rfl | rfl | rfl <;>
    simp [OptionsRec.setOption, OptionsRec.getOption]

theorem getOption_setOption_ne {o : OptionsRec} {a b : String} (h : a ≠ b) (v : PyVal) :
    (o.setOption b v).getOption a = o.getOption a := by
  unfold OptionsRec.getOption
  by_cases h1 : a = "verbose_name"
  · subst h1
    simp [setOption_verboseName_ne v (Ne.symm h)]
  · have e1 : (a == "verbose_name") = false := beq_eq_false_iff_ne.mpr h1
    by_cases h2 : a = "db_table"
    · subst h2
      simp [e1, setOption_dbTable_ne v (Ne.symm h)]
    · have e2 : (a == "db_table") = false := beq_eq_false_iff_ne.mpr h2
      by_cases h3 : a = "ordering"
      · subst h3
        simp [e1, e2, setOption_ordering_ne v (Ne.symm h)]
      · have e3 : (a == "ordering") = false := beq_eq_false_iff_ne.mpr h3
        by_cases h4 : a = "app_label"
        · subst h4
          simp [e1, e2, e3, setOption_appLabel_ne v (Ne.symm h)]
        · have e4 : (a == "app_label") = false := beq_eq_false_iff_ne.mpr h4
          simp [e1, e2, e3, e4]

theorem contribStep_fst_getOption_ne {m : MetaObj} {acc : OptionsRec × List (String × PyVal)}
    {a b : String} (h : a ≠ b) :
    ((contribStep m acc b).1).getOption a = acc.1.getOption a := by
  unfold contribStep
  cases h1 : alistLookup acc.2 b with
  | some v => simp [getOption_setOption_ne h]
  | none => cases h2 : m.getattr b <;> simp [getOption_setOption_ne h]

theorem foldl_contribStep_getOption_not_mem {m : MetaObj} {names : List String}
    {acc : OptionsRec × List (String × PyVal)} {a : String} (ha : a ∉ names) :
    ((names.foldl (contribStep m) acc).1).getOption a = acc.1.getOption a := by
  induction names generalizing acc with
  | nil => rfl
  | cons b names ih =>
    rw [List.foldl_cons]
    have hab : a ≠ b := fun hh => ha (hh ▸ List.mem_cons_self b names)
    rw [ih (fun hh => ha (List.mem_cons_of_mem b hh)), contribStep_fst_getOption_ne hab]

theorem foldl_contribStep_set {m : MetaObj} {names : List String}
    {acc : OptionsRec × List (String × PyVal)} {a : String} {v : PyVal}
    (hnd : names.Nodup) (ha : a ∈ names) (haD : a ∈ DEFAULT_NAMES)
    (hv : ((alistLookup acc.2 a).orElse (fun _ => m.getattr a)) = some v) :
    ((names.foldl (contribStep m) acc).1).getOption a = some v := by
  induction names generalizing acc with
  | nil => cases ha
  | cons b names ih =>
    rw [List.foldl_cons]
    rcases List.mem_cons.mp ha with rfl | hmem
    · have hnotin : a ∉ names := (List.nodup_cons.mp hnd).1
      rw [foldl_contribStep_getOption_not_mem hnotin]
      unfold contribStep
      cases h1 : alistLookup acc.2 a with
      | some w =>
        rw [h1] at hv
        simp only [Option.orElse] at hv
        injection hv with hv
        subst hv
        simp [getOption_setOption_self haD]
      | none =>
        rw [h1] at hv
        simp only [Option.orElse] at hv
        simp [hv, getOption_setOption_self haD]
    · have hab : a ≠ b := by
        rintro rfl
        exact (List.nodup_cons.mp hnd).1 hmem
      apply ih (List.nodup_cons.mp hnd).2 hmem
      rw [contribStep_snd, alistLookup_popKey hab]
      exact hv

theorem contribStep_id {m : MetaObj} {acc : OptionsRec × List (String × PyVal)} {a : String}
    (h1 : alistLookup acc.2 a = none) (h2 : m.getattr a = none) :
    contribStep m acc a = acc := by
  unfold contribStep
  simp [h1, h2]

theorem foldl_contribStep_id {m : MetaObj} {names : List String}
    {acc : OptionsRec × List (String × PyVal)}
    (hids : ∀ a ∈ names, alistLookup acc.2 a = none ∧ m.getattr a = none) :
    names.foldl (contribStep m) acc = acc := by
  induction names with
  | nil => rfl
  | cons a ns ih =>
    rw [List.foldl_cons,
      contribStep_id (hids a (List.mem_cons_self a ns)).1 (hids a (List.mem_cons_self a ns)).2]
    exact ih (fun b hb => hids b (List.mem_cons_of_mem a hb))

theorem foldl_contribStep_not_set {m : MetaObj} {names : List String}
    {acc : OptionsRec × List (String × PyVal)} {a : String}
    (h1 : alistLookup acc.2 a = none) (h2 : m.getattr a = none) :
    ((names.foldl (contribStep m) acc).1).getOption a = acc.1.getOption a := by
  induction names generalizing acc with
  | nil => rfl
  | cons b ns ih =>
    rw [List.foldl_cons]
    by_cases hab : a = b
    · subst hab
      rw [contribStep_id h1 h2]
      exact ih h1
    · have hsnd : alistLookup (contribStep m acc b).2 a = none := by
        rw [contribStep_snd, alistLookup_popKey hab]
        exact h1
      rw [ih hsnd, contribStep_fst_getOption_ne hab]

theorem getOption_congr {o o2 : OptionsRec} (a : String)
    (h1 : o.verboseName = o2.verboseName) (h2 : o.dbTable = o2.dbTable)
    (h3 : o.ordering = o2.ordering) (h4 : o.appLabel = o2.appLabel) :
    o.getOption a = o2.getOption a := by
  unfold OptionsRec.getOption
  rw [h1, h2, h3, h4]

theorem combined_eq_getattr (m : MetaObj) {a : String}
    (hund : strStartsWith a "_" = false) :
    ((alistLookup (m.ownDict.filter (fun p => !(strStartsWith p.fst "_"))) a).orElse
      (fun _ => m.getattr a)) = m.getattr a := by
  have hq : (fun s => !(strStartsWith s "_")) a = true := by simp [hund]
  rw [alistLookup_filter (q := fun s => !(strStartsWith s "_")) hq]
  unfold MetaObj.getattr
  cases alistLookup m.ownDict a <;> rfl

/-! ## Lemmas about the field maps of `get_field` -/

theorem fmInsert_eq (mp : FieldMap) (k : String) (v : FieldRec) :
    fmInsert mp k v k = some v := by
  unfold fmInsert
  simp

theorem fmInsert_ne (mp : FieldMap) {k q : String} (v : FieldRec) (h : q ≠ k) :
    fmInsert mp k v q = mp q := by
  unfold fmInsert
  simp [h]

theorem fieldMapStep_some {res : FieldMap} {f : FieldRec} {k : String} {g : FieldRec}
    (h : fieldMapStep res f k = some g) :
    (g = f ∧ (f.name = k ∨ f.attname = some k)) ∨ res k = some g := by
  unfold fieldMapStep at h
  cases ha : f.attname with
  | none =>
    rw [ha] at h
    dsimp only at h
    by_cases hk : k = f.name
    · subst hk
      rw [fmInsert_eq] at h
      injection h with h
      exact Or.inl ⟨h.symm, Or.inl rfl⟩
    · rw [fmInsert_ne _ _ hk] at h
      exact Or.inr h
  | some a =>
    rw [ha] at h
    dsimp only at h
    by_cases hk : k = a
    · subst hk
      rw [fmInsert_eq] at h
      injection h with h
      exact Or.inl ⟨h.symm, Or.inr rfl⟩
    · rw [fmInsert_ne _ _ hk] at h
      by_cases hk2 : k = f.name
      · subst hk2
        rw [fmInsert_eq] at h
        injection h with h
        exact Or.inl ⟨h.symm, Or.inl rfl⟩
      · rw [fmInsert_ne _ _ hk2] at h
        exact Or.inr h

theorem fieldMapStep_none {res : FieldMap} {f : FieldRec} {k : String} :
    fieldMapStep res f k = none ↔ res k = none ∧ f.name ≠ k ∧ f.attname ≠ some k := by
  unfold fieldMapStep
  cases ha : f.attname with
  | none =>
    dsimp only
    by_cases hk : k = f.name
    · subst hk
      rw [fmInsert_eq]
      constructor
      · intro hcon
        cases hcon
      · intro hcon
        exact absurd rfl hcon.2.1
    · rw [fmInsert_ne _ _ hk]
      constructor
      · intro h0
        refine ⟨h0, fun hh => hk hh.symm, ?_⟩
        intro hcon
        cases hcon
      · intro h0
        exact h0.1
  | some a =>
    dsimp only
    by_cases hk : k = a
    · subst hk
      rw [fmInsert_eq]
      constructor
      · intro hcon
        cases hcon
      · intro hcon
        exact absurd rfl hcon.2.2
    · by_cases hk2 : k = f.name
      · subst hk2
        rw [fmInsert_ne _ _ hk, fmInsert_eq]
        constructor
        · intro hcon
          cases hcon
        · intro hcon
          exact absurd rfl hcon.2.1
      · rw [fmInsert_ne _ _ hk, fmInsert_ne _ _ hk2]
        constructor
        · intro h0
          refine ⟨h0, fun hh => hk2 hh.symm, ?_⟩
          intro hcon
          injection hcon with hcon
          exact hk hcon.symm
        · intro h0
          exact h0.1

theorem buildAux_some {fields : List FieldRec} :
    ∀ {init : FieldMap} {k : String} {f : FieldRec},
      fields.foldl fieldMapStep init k = some f →
      init k = some f ∨ (f ∈ fields ∧ (f.name = k ∨ f.attname = some k)) := by
  induction fields with
  | nil => intro init k f h; exact Or.inl h
  | cons g gs ih =>
    intro init k f h
    rw [List.foldl_cons] at h
    rcases ih h with hinit | hmem
    · rcases fieldMapStep_some hinit with ⟨rfl, hk⟩ | hres
      · exact Or.inr ⟨List.mem_cons_self _ _, hk⟩
      · exact Or.inl hres
    · exact Or.inr ⟨List.mem_cons_of_mem _ hmem.1, hmem.2⟩

theorem buildAux_none {fields : List FieldRec} :
    ∀ {init : FieldMap} {k : String},
      fields.foldl fieldMapStep init k = none ↔
      init k = none ∧ ∀ f ∈ fields, f.name ≠ k ∧ f.attname ≠ some k := by
  induction fields with
  | nil => intro init k; simp
  | cons g gs ih =>
    intro init k
    rw [List.foldl_cons, ih, fieldMapStep_none]
    simp only [List.forall_mem_cons]
    tauto

theorem buildFieldsMap_some {fields : List FieldRec} {k : String} {f : FieldRec}
    (h : buildFieldsMap fields k = some f) :
    f ∈ fields ∧ (f.name = k ∨ f.attname = some k) := by
  unfold buildFieldsMap at h
  rcases buildAux_some h with h0 | h1
  · cases h0
  · exact h1

theorem buildFieldsMap_none {fields : List FieldRec} {k : String} :
    buildFieldsMap fields k = none ↔ ∀ f ∈ fields, f.name ≠ k ∧ f.attname ≠ some k := by
  unfold buildFieldsMap
  rw [buildAux_none]
  simp

theorem forwardFieldsMapGet_char {st : OptState}
    (hf : st.forwardCache = none ∨ st.forwardCache = some (buildFieldsMap st.localFields)) :
    forwardFieldsMapGet st
      = (buildFieldsMap st.localFields,
         { st with forwardCache := some (buildFieldsMap st.localFields) }) := by
  rcases hf with h | h
  · unfold forwardFieldsMapGet
    rw [h]
    rfl
  · unfold forwardFieldsMapGet
    rw [h]
    cases st
    simp only at h
    simp [h]

theorem fieldsMapGet_char {st : OptState}
    (hm : st.fieldsMapCache = none ∨ st.fieldsMapCache = some (buildFieldsMap st.localFields)) :
    fieldsMapGet st
      = (buildFieldsMap st.localFields,
         { st with fieldsMapCache := some (buildFieldsMap st.localFields) }) := by
  rcases hm with h | h
  · unfold fieldsMapGet
    rw [h]
    rfl
  · unfold fieldsMapGet
    rw [h]
    cases st
    simp only at h
    simp [h]

/-! ## Inversion lemmas for `contribApplyMeta` -/

theorem contribApplyMeta_ok_pk {m : MetaObj} {o1 o : OptionsRec}
    (h : contribApplyMeta m o1 = Except.ok o) : o.pk = o1.pk := by
  unfold contribApplyMeta at h
  dsimp only at h
  split at h
  · injection h with h
    rw [← h]
    dsimp only
    rw [foldl_contribStep_pk]
  · exact absurd h (by simp)

theorem contribApplyMeta_ok_no_override {m : MetaObj} {o1 o : OptionsRec}
    (hno : ∀ a ∈ ("verbose_name_plural" :: DEFAULT_NAMES), m.getattr a = none)
    (h : contribApplyMeta m o1 = Except.ok o) :
    o.objectName = o1.objectName ∧ o.moduleName = o1.moduleName
    ∧ o.verboseName = o1.verboseName
    ∧ o.verboseNamePlural = PyVal.lazyConcat o1.verboseName "s" := by
  have hids : ∀ a ∈ DEFAULT_NAMES,
      alistLookup (m.ownDict.filter (fun p => !(strStartsWith p.fst "_"))) a = none
      ∧ m.getattr a = none := by
    intro a ha
    have hg : m.getattr a = none := hno a (List.mem_cons_of_mem _ ha)
    exact ⟨alistLookup_filter_none _ (metaObj_getattr_none hg).1, hg⟩
  have hvnp : alistLookup (m.ownDict.filter (fun p => !(strStartsWith p.fst "_")))
      "verbose_name_plural" = none :=
    alistLookup_filter_none _
      (metaObj_getattr_none (hno _ (List.mem_cons_self _ _))).1
  unfold contribApplyMeta at h
  dsimp only at h
  rw [foldl_contribStep_id hids] at h
  dsimp only at h
  rw [hvnp] at h
  dsimp only at h
  split at h
  · injection h with h
    rw [← h]
    exact ⟨rfl, rfl, rfl, rfl⟩
  · exact absurd h (by simp)

theorem contribApplyMeta_ok_getOption {m : MetaObj} {o1 o : OptionsRec} {a : String}
    {v : PyVal} (ha : a ∈ DEFAULT_NAMES) (hund : strStartsWith a "_" = false)
    (hv : m.getattr a = some v) (h : contribApplyMeta m o1 = Except.ok o) :
    o.getOption a = some v := by
  unfold contribApplyMeta at h
  dsimp only at h
  split at h
  · injection h with h
    rw [← h]
    refine (getOption_congr a rfl rfl rfl rfl).trans ?_
    apply foldl_contribStep_set (by decide) ha ha
    rw [combined_eq_getattr m hund]
    exact hv
  · exact absurd h (by simp)

theorem contribApplyMeta_ok_getOption_keep {m : MetaObj} {o1 o : OptionsRec} {a : String}
    (hv : m.getattr a = none)
    (h : contribApplyMeta m o1 = Except.ok o) :
    o.getOption a = o1.getOption a := by
  unfold contribApplyMeta at h
  dsimp only at h
  split at h
  · injection h with h
    rw [← h]
    refine (getOption_congr a rfl rfl rfl rfl).trans ?_
    exact foldl_contribStep_not_set
      (alistLookup_filter_none _ (metaObj_getattr_none hv).1) hv
  · exact absurd h (by simp)

theorem contribApplyMeta_ok_vnp {m : MetaObj} {o1 o : OptionsRec}
    (h : contribApplyMeta m o1 = Except.ok o) :
    (∀ v, alistLookup m.ownDict "verbose_name_plural" = some v → o.verboseNamePlural = v)
    ∧ (alistLookup m.ownDict "verbose_name_plural" = none →
        o.verboseNamePlural = PyVal.lazyConcat o.verboseName "s") := by
  have hsnd : (DEFAULT_NAMES.foldl (contribStep m)
      (o1, m.ownDict.filter (fun p => !(strStartsWith p.fst "_")))).2
      = (m.ownDict.filter (fun p => !(strStartsWith p.fst "_"))).filter
          (fun p => !(DEFAULT_NAMES.contains p.fst)) := by
    rw [foldl_contribStep_snd, foldl_popKey_eq_filter]
  have hlook : alistLookup ((m.ownDict.filter (fun p => !(strStartsWith p.fst "_"))).filter
      (fun p => !(DEFAULT_NAMES.contains p.fst))) "verbose_name_plural"
      = alistLookup m.ownDict "verbose_name_plural" := by
    rw [alistLookup_filter (q := fun s => !(DEFAULT_NAMES.contains s)) (by decide),
      alistLookup_filter (q := fun s => !(strStartsWith s "_")) (by decide)]
  unfold contribApplyMeta at h
  dsimp only at h
  rw [hsnd, hlook] at h
  constructor
  · intro v hv
    rw [hv] at h
    dsimp only at h
    split at h
    · injection h with h
      rw [← h]
    · exact absurd h (by simp)
  · intro hv
    rw [hv] at h
    dsimp only at h
    split at h
    · injection h with h
      rw [← h]
    · exact absurd h (by simp)

theorem leftover_pred_iff (p : String × PyVal) :
    ((((p.fst != "verbose_name_plural") && (!(DEFAULT_NAMES.contains p.fst)))
        && (!(strStartsWith p.fst "_"))) = true)
    ↔ (strStartsWith p.fst "_" = false ∧ p.fst ∉ DEFAULT_NAMES
        ∧ p.fst ≠ "verbose_name_plural") := by
  have hc : (DEFAULT_NAMES.contains p.fst = false) ↔ p.fst ∉ DEFAULT_NAMES := by
    rw [← Bool.not_eq_true]
    exact not_congr List.elem_iff
  simp only [Bool.and_eq_true, bne_iff_ne, Bool.not_eq_true', hc]
  tauto

theorem contribApplyMeta_error_iff (m : MetaObj) (o1 : OptionsRec) :
    (∃ e, contribApplyMeta m o1 = Except.error e)
      ↔ ∃ p ∈ m.ownDict, strStartsWith p.fst "_" = false
          ∧ p.fst ∉ DEFAULT_NAMES ∧ p.fst ≠ "verbose_name_plural" := by
  have hsnd : (DEFAULT_NAMES.foldl (contribStep m)
      (o1, m.ownDict.filter (fun p => !(strStartsWith p.fst "_")))).2
      = (m.ownDict.filter (fun p => !(strStartsWith p.fst "_"))).filter
          (fun p => !(DEFAULT_NAMES.contains p.fst)) := by
    rw [foldl_contribStep_snd, foldl_popKey_eq_filter]
  have hrest : popKey ((m.ownDict.filter (fun p => !(strStartsWith p.fst "_"))).filter
      (fun p => !(DEFAULT_NAMES.contains p.fst))) "verbose_name_plural"
      = m.ownDict.filter (fun p =>
          ((p.fst != "verbose_name_plural") && (!(DEFAULT_NAMES.contains p.fst)))
            && (!(strStartsWith p.fst "_"))) := by
    unfold popKey
    rw [List.filter_filter, List.filter_filter]
  unfold contribApplyMeta
  dsimp only
  rw [hsnd, hrest]
  cases hX : (m.ownDict.filter (fun p =>
      ((p.fst != "verbose_name_plural") && (!(DEFAULT_NAMES.contains p.fst)))
        && (!(strStartsWith p.fst "_")))).isEmpty
  · simp only [hX, Bool.false_eq_true, if_false]
    constructor
    · intro _
      rw [List.isEmpty_eq_false_iff_exists_mem] at hX
      obtain ⟨p, hp⟩ := hX
      have hmem := List.mem_filter.mp hp
      exact ⟨p, hmem.1, (leftover_pred_iff p).mp hmem.2⟩
    · intro _
      exact ⟨_, rfl⟩
  · simp only [hX, if_true]
    constructor
    · intro ⟨e, he⟩
      exact absurd he (by simp)
    · intro ⟨p, hp, hc⟩
      rw [List.isEmpty_iff] at hX
      have : p ∈ m.ownDict.filter (fun p =>
          ((p.fst != "verbose_name_plural") && (!(DEFAULT_NAMES.contains p.fst)))
            && (!(strStartsWith p.fst "_"))) :=
        List.mem_filter.mpr ⟨hp, (leftover_pred_iff p).mpr hc⟩
      rw [hX] at this
      cases this

theorem getOption_app_label (o : OptionsRec) : o.getOption "app_label" = some o.appLabel := by
  simp [OptionsRec.getOption]

theorem contributeToClass_ok_appLabel_of_getattr {gvn : String → String}
    {installedApps : List String} {m : MetaObj} {al v : PyVal} {cls : ClsTok} {o : OptionsRec}
    (hg : m.getattr "app_label" = some v)
    (h : contributeToClass gvn installedApps (optionsInit (some m) al) cls = Except.ok o) :
    o.appLabel = v := by
  have h2 : contribApplyMeta m
      (contribInitDefaults gvn installedApps (optionsInit (some m) al) cls)
      = Except.ok o := h
  have hset := contribApplyMeta_ok_getOption (a := "app_label") (by decide) (by decide) hg h2
  rw [getOption_app_label] at hset
  injection hset

theorem contributeToClass_ok_appLabel_keep {gvn : String → String}
    {installedApps : List String} {meta0 : Option MetaObj} {al : PyVal} {cls : ClsTok}
    {o : OptionsRec}
    (hmeta : ∀ m, meta0 = some m → m.getattr "app_label" = none)
    (h : contributeToClass gvn installedApps (optionsInit meta0 al) cls = Except.ok o) :
    o.appLabel = al := by
  cases meta0 with
  | none =>
    unfold contributeToClass at h
    dsimp only at h
    injection h with h
    rw [← h]
    rfl
  | some m =>
    have h2 : contribApplyMeta m
        (contribInitDefaults gvn installedApps (optionsInit (some m) al) cls)
        = Except.ok o := h
    have hkeep := contribApplyMeta_ok_getOption_keep (a := "app_label") (hmeta m rfl) h2
    rw [getOption_app_label, getOption_app_label] at hkeep
    injection hkeep

/-! ## Inversion lemma for `documentMetaNew` -/

theorem documentMetaNew_ok_inv {R C : Type} {gvn : String → String}
    {installedApps : List String} {L : LoadingApi R C} {superNew : ClassInput → C}
    {reg : R} {inp : ClassInput} {out : MetaNewOut R C}
    (hpar : inp.basesMeta.any (fun b => b) = true)
    (h : documentMetaNew gvn installedApps L superNew reg inp = Except.ok out) :
    ∃ l opts,
      out.appLabel = some l
      ∧ out.newClass = superNew inp
      ∧ out.registrations = [(l, superNew inp)]
      ∧ out.attachedMeta = some opts
      ∧ out.registry = L.registerSchema reg l (superNew inp)
      ∧ out.result = L.getSchema (L.registerSchema reg l (superNew inp)) l inp.name
      ∧ contributeToClass gvn installedApps (optionsInit (chosenMeta inp) l)
          { name := inp.name, module := inp.module } = Except.ok opts
      ∧ ((metaAppLabel inp = PyVal.pynone
            ∧ ∃ s, pyIndexFromEnd2 (splitOnDot inp.module) = some s ∧ l = PyVal.str s)
         ∨ (metaAppLabel inp ≠ PyVal.pynone ∧ l = metaAppLabel inp)) := by
  unfold documentMetaNew at h
  rw [if_neg (by simp [hpar])] at h
  dsimp only at h
  by_cases hal : metaAppLabel inp = PyVal.pynone
  · rw [if_pos hal] at h
    cases hidx : pyIndexFromEnd2 (splitOnDot inp.module) with
    | none =>
      rw [hidx] at h
      exact absurd h (by simp)
    | some s =>
      rw [hidx] at h
      dsimp only at h
      cases hc : contributeToClass gvn installedApps
          (optionsInit (chosenMeta inp) (PyVal.str s))
          { name := inp.name, module := inp.module } with
      | error e =>
        rw [hc] at h
        exact absurd h (by simp)
      | ok opts =>
        rw [hc] at h
        dsimp only at h
        injection h with h
        rw [← h]
        exact ⟨PyVal.str s, opts, rfl, rfl, rfl, rfl, rfl, rfl, hc,
          Or.inl ⟨hal, s, rfl, rfl⟩⟩
  · rw [if_neg hal] at h
    dsimp only at h
    cases hc : contributeToClass gvn installedApps
        (optionsInit (chosenMeta inp) (metaAppLabel inp))
        { name := inp.name, module := inp.module } with
    | error e =>
      rw [hc] at h
      exact absurd h (by simp)
    | ok opts =>
      rw [hc] at h
      dsimp only at h
      injection h with h
      rw [← h]
      exact ⟨metaAppLabel inp, opts, rfl, rfl, rfl, rfl, rfl, rfl, hc,
        Or.inr ⟨hal, rfl⟩⟩

/-! ## The claims -/

/-- C5: with the app registry ready and `many_to_many` not supplied,
`Options.get_field` returns a field of `local_fields` whose `name` or
`attname` equals the requested name, raises `FieldDoesNotExist` exactly
when no such field exists, and the name-to-field map is computed once
from `local_fields` and cached, so a repeated call in the same state
reuses the same map and returns the same answer. -/
theorem C5_get_field (st : OptState) (fieldName : String)
    (hf : st.forwardCache = none ∨ st.forwardCache = some (buildFieldsMap st.localFields))
    (hm : st.fieldsMapCache = none ∨ st.fieldsMapCache = some (buildFieldsMap st.localFields)) :
    (∀ f, (getField true st fieldName none).1 = Except.ok f →
        f ∈ st.localFields ∧ (f.name = fieldName ∨ f.attname = some fieldName))
    ∧ ((∃ e, (getField true st fieldName none).1 = Except.error e)
        ↔ ∀ f ∈ st.localFields, f.name ≠ fieldName ∧ f.attname ≠ some fieldName)
    ∧ (getField true st fieldName none).2.forwardCache
        = some (buildFieldsMap st.localFields)
    ∧ getField true ((getField true st fieldName none).2) fieldName none
        = getField true st fieldName none := by
  have h1 := forwardFieldsMapGet_char hf
  unfold getField
  rw [h1]
  dsimp only
  cases hlook : buildFieldsMap st.localFields fieldName with
  | some f0 =>
    obtain ⟨hmem, hkey⟩ := buildFieldsMap_some hlook
    simp only [show ((none : Option Bool) == some false) = false from rfl, Bool.false_and,
      Bool.false_eq_true, if_false]
    refine ⟨?_, ?_, ?_, ?_⟩
    · intro f hfe
      injection hfe with hfe
      subst hfe
      exact ⟨hmem, hkey⟩
    · constructor
      · intro ⟨e, he⟩
        exact absurd he (by simp)
      · intro hall
        exfalso
        rcases hkey with hn | ha
        · exact (hall f0 hmem).1 hn
        · exact (hall f0 hmem).2 ha
    · trivial
    · rw [forwardFieldsMapGet_char (Or.inr rfl)]
      dsimp only
      rw [hlook]
  | none =>
    have h2 : fieldsMapGet { st with forwardCache := some (buildFieldsMap st.localFields) }
        = (buildFieldsMap st.localFields,
           { st with
             forwardCache := some (buildFieldsMap st.localFields)
             fieldsMapCache := some (buildFieldsMap st.localFields) }) :=
      fieldsMapGet_char hm
    simp only [Bool.not_true, Bool.false_eq_true, if_false,
      show ((none : Option Bool).isSome) = false from rfl]
    rw [h2]
    dsimp only
    rw [hlook]
    refine ⟨?_, ?_, ?_, ?_⟩
    · intro f hfe
      exact absurd hfe (by simp)
    · constructor
      · intro _
        exact buildFieldsMap_none.mp hlook
      · intro _
        exact ⟨_, rfl⟩
    · trivial
    · rw [forwardFieldsMapGet_char (Or.inr rfl)]
      dsimp only
      rw [hlook]
      simp only [Bool.not_true, Bool.false_eq_true, if_false,
        show ((none : Option Bool).isSome) = false from rfl]
      rw [fieldsMapGet_char (Or.inr rfl)]
      dsimp only
      rw [hlook]

theorem C5_witness :
    (∀ f, (getField true exOptState "alpha_id" none).1 = Except.ok f →
        f ∈ exOptState.localFields ∧ (f.name = "alpha_id" ∨ f.attname = some "alpha_id"))
    ∧ ((∃ e, (getField true exOptState "alpha_id" none).1 = Except.error e)
        ↔ ∀ f ∈ exOptState.localFields, f.name ≠ "alpha_id" ∧ f.attname ≠ some "alpha_id")
    ∧ (getField true exOptState "alpha_id" none).2.forwardCache
        = some (buildFieldsMap exOptState.localFields)
    ∧ getField true ((getField true exOptState "alpha_id" none).2) "alpha_id" none
        = getField true exOptState "alpha_id" none :=
  C5_get_field exOptState "alpha_id" (Or.inl rfl) (Or.inl rfl)

/-- C6: every re-exported name — `DocumentSchema`, the property classes
and the utility functions — is the identical object bound by
`couchdbkit.schema`, forwarded without modification. -/
theorem C6_reexports_unchanged {α : Type} (schema : SchemaModule α) :
    moduleExports schema = schema := rfl

/-- C10: `Document.get_db` is idempotent through caching: with `_db`
unset, the first call resolves the database from the app label and
stores it in `_db`, and a subsequent call returns the same cached object
without consulting the registry. -/
theorem C10_get_db_caching {DB : Type} (resolver : String → DB) (st : DocClassState DB)
    (h : st.db = none) :
    (documentGetDb resolver st).1 = resolver st.appLabel
    ∧ (documentGetDb resolver st).2.1.db = some (resolver st.appLabel)
    ∧ (documentGetDb resolver st).2.2 = [st.appLabel]
    ∧ documentGetDb resolver (documentGetDb resolver st).2.1 =
        (resolver st.appLabel, (documentGetDb resolver st).2.1, []) := by
  unfold documentGetDb
  rw [h]
  exact ⟨rfl, rfl, rfl, rfl⟩

theorem C10_witness :
    (documentGetDb (fun _ => (42 : Nat)) { appLabel := "myapp", db := none }).1 = 42
    ∧ (documentGetDb (fun _ => (42 : Nat)) { appLabel := "myapp", db := none }).2.1.db = some 42
    ∧ (documentGetDb (fun _ => (42 : Nat)) { appLabel := "myapp", db := none }).2.2 = ["myapp"]
    ∧ documentGetDb (fun _ => (42 : Nat))
        ((documentGetDb (fun _ => (42 : Nat)) { appLabel := "myapp", db := none }).2.1) =
        (42, (documentGetDb (fun _ => (42 : Nat)) { appLabel := "myapp", db := none }).2.1, []) :=
  C10_get_db_caching (fun _ => 42) { appLabel := "myapp", db := none } rfl

/-- C7: every class successfully processed by
`Options.contribute_to_class` gets `_meta.pk` set to a `PKField` whose
`name` and `attname` are both `'pk'`, whose `to_python` returns
`str(value)` and whose `value_to_string` returns `str(obj.pk)`. -/
theorem C7_pk_field (gvn : String → String) (installedApps : List String)
    (o0 : OptionsRec) (cls : ClsTok) (o : OptionsRec)
    (h : contributeToClass gvn installedApps o0 cls = Except.ok o) :
    o.pk = some { name := "pk", attname := "pk" }
    ∧ (∀ f v, o.pk = some f → f.to_python v = pyStr v)
    ∧ (∀ f obj, o.pk = some f → f.value_to_string obj = pyStr obj.pk) := by
  refine ⟨?_, fun f v _ => rfl, fun f obj _ => rfl⟩
  unfold contributeToClass at h
  split at h
  · rw [contribApplyMeta_ok_pk h]
    rfl
  · injection h with h
    rw [← h]
    rfl

/-- C2: in `Options.contribute_to_class`, Meta attributes starting with
an underscore are ignored, the `DEFAULT_NAMES` attributes are copied
onto the Options instance, `verbose_name_plural` comes from Meta when
present and otherwise is `verbose_name` plus `'s'`, and a `TypeError`
on leftover attributes is raised exactly when Meta's own `__dict__` has
another attribute not starting with an underscore. -/
theorem C2_meta_attr_validation (gvn : String → String) (installedApps : List String)
    (al : PyVal) (m : MetaObj) (cls : ClsTok) :
    ((∃ e, contributeToClass gvn installedApps (optionsInit (some m) al) cls = Except.error e)
      ↔ ∃ p ∈ m.ownDict, strStartsWith p.fst "_" = false ∧ p.fst ∉ DEFAULT_NAMES
          ∧ p.fst ≠ "verbose_name_plural")
    ∧ (∀ o, contributeToClass gvn installedApps (optionsInit (some m) al) cls = Except.ok o →
        (∀ a ∈ DEFAULT_NAMES, ∀ v, alistLookup m.ownDict a = some v → o.getOption a = some v)
        ∧ (∀ v, alistLookup m.ownDict "verbose_name_plural" = some v →
            o.verboseNamePlural = v)
        ∧ (alistLookup m.ownDict "verbose_name_plural" = none →
            o.verboseNamePlural = PyVal.lazyConcat o.verboseName "s")) := by
  constructor
  · exact contribApplyMeta_error_iff m
      (contribInitDefaults gvn installedApps (optionsInit (some m) al) cls)
  · intro o h
    have h2 : contribApplyMeta m
        (contribInitDefaults gvn installedApps (optionsInit (some m) al) cls)
        = Except.ok o := h
    refine ⟨?_, (contribApplyMeta_ok_vnp h2).1, (contribApplyMeta_ok_vnp h2).2⟩
    intro a ha v hv
    have hund : strStartsWith a "_" = false := by
      simp only [DEFAULT_NAMES, List.mem_cons, List.not_mem_nil, or_false] at ha
      rcases ha with rfl | rfl | rfl | rfl <;> decide
    have hg : m.getattr a = some v := by
      unfold MetaObj.getattr
      rw [hv]
      rfl
    exact contribApplyMeta_ok_getOption ha hund hg h2

theorem C2_witness :
    (contributeToClass (fun s => s) [] (optionsInit (some exMetaDb) (PyVal.str "app"))
        exCls).map (fun o => (o.getOption "db_table", o.verboseNamePlural))
      = Except.ok (some (PyVal.str "tbl"), PyVal.lazyConcat (PyVal.str "MyDoc") "s")
    ∧ (∃ e, contributeToClass (fun s => s) []
        (optionsInit (some exMetaJunk) (PyVal.str "app")) exCls = Except.error e) := by
  constructor
  · cases hc : contributeToClass (fun s => s) []
        (optionsInit (some exMetaDb) (PyVal.str "app")) exCls with
    | error e =>
      have hex := (C2_meta_attr_validation (fun s => s) [] (PyVal.str "app")
        exMetaDb exCls).1.mp ⟨e, hc⟩
      exact absurd hex (by decide)
    | ok o =>
      have hparts := (C2_meta_attr_validation (fun s => s) [] (PyVal.str "app")
        exMetaDb exCls).2 o hc
      have h1 := hparts.1 "db_table" (by decide) (PyVal.str "tbl") (by decide)
      have h2 := hparts.2.2 (by decide)
      have h3 : o.verboseName = PyVal.str "MyDoc" := by
        have h4 : contribApplyMeta exMetaDb
            (contribInitDefaults (fun s => s) []
              (optionsInit (some exMetaDb) (PyVal.str "app")) exCls) = Except.ok o := hc
        have h5 := contribApplyMeta_ok_getOption_keep (a := "verbose_name") (by decide) h4
        unfold OptionsRec.getOption at h5
        simp only [beq_self_eq_true, if_true] at h5
        injection h5
      simp only [Except.map, h2, h3, h1]
  · exact (C2_meta_attr_validation (fun s => s) [] (PyVal.str "app")
      exMetaJunk exCls).1.mpr
      ⟨("junk", PyVal.obj 1), by decide, by decide, by decide, by decide⟩

/-- C4: after `contribute_to_class` on a class whose Meta (if any)
overrides none of the default names, `object_name` is the class name,
`module_name` its lowercasing, `verbose_name` is
`get_verbose_name(cls.__name__)`, and `verbose_name_plural` is
`verbose_name` plus `'s'` — whether or not a Meta was supplied. -/
theorem C4_default_name_derivation (gvn : String → String) (installedApps : List String)
    (meta0 : Option MetaObj) (al : PyVal) (cls : ClsTok) (o : OptionsRec)
    (hno : ∀ m, meta0 = some m →
      ∀ a ∈ ("verbose_name_plural" :: DEFAULT_NAMES), m.getattr a = none)
    (h : contributeToClass gvn installedApps (optionsInit meta0 al) cls = Except.ok o) :
    o.objectName = some cls.name
    ∧ o.moduleName = some (strToLower cls.name)
    ∧ o.verboseName = PyVal.str (gvn cls.name)
    ∧ o.verboseNamePlural = PyVal.lazyConcat (PyVal.str (gvn cls.name)) "s" := by
  cases meta0 with
  | none =>
    unfold contributeToClass at h
    dsimp only at h
    injection h with h
    rw [← h]
    exact ⟨rfl, rfl, rfl, rfl⟩
  | some m =>
    have h2 : contribApplyMeta m
        (contribInitDefaults gvn installedApps (optionsInit (some m) al) cls)
        = Except.ok o := h
    have hr := contribApplyMeta_ok_no_override (hno m rfl) h2
    exact ⟨hr.1, hr.2.1, hr.2.2.1, hr.2.2.2⟩

theorem C4_witness :
    (contributeToClass (fun s => s) []
        (optionsInit (some exMetaPrivate) (PyVal.str "a")) exCls).map
      (fun o => (o.objectName, o.moduleName, o.verboseName, o.verboseNamePlural))
      = Except.ok (some "MyDoc", some "mydoc", PyVal.str "MyDoc",
          PyVal.lazyConcat (PyVal.str "MyDoc") "s") := by
  cases hc : contributeToClass (fun s => s) []
      (optionsInit (some exMetaPrivate) (PyVal.str "a")) exCls with
  | error e =>
    have hex := (contribApplyMeta_error_iff exMetaPrivate
      (contribInitDefaults (fun s => s) []
        (optionsInit (some exMetaPrivate) (PyVal.str "a")) exCls)).mp ⟨e, hc⟩
    exact absurd hex (by decide)
  | ok o =>
    have hr := C4_default_name_derivation (fun s => s) []
      (some exMetaPrivate) (PyVal.str "a") exCls o
      (by
        rintro mm hmm
        injection hmm with hmm
        subst hmm
        decide)
      hc
    simp only [Except.map, hr.1, hr.2.1, hr.2.2.1, hr.2.2.2]
    exact congrArg Except.ok (by decide)

theorem C7_witness :
    (contributeToClass (fun s => s) [] (optionsInit none (PyVal.str "x"))
        { name := "MyDoc", module := "myapp.models" }).map OptionsRec.pk
      = Except.ok (some { name := "pk", attname := "pk" })
    ∧ PKField.to_python { name := "pk", attname := "pk" } (PyVal.str "v") = pyStr (PyVal.str "v")
    ∧ PKField.value_to_string { name := "pk", attname := "pk" } { pk := PyVal.obj 3 }
        = pyStr (PyVal.obj 3) := by
  cases hc : contributeToClass (fun s => s) [] (optionsInit none (PyVal.str "x"))
      { name := "MyDoc", module := "myapp.models" } with
  | error e =>
    have : Except.isOk (contributeToClass (fun s => s) [] (optionsInit none (PyVal.str "x"))
        { name := "MyDoc", module := "myapp.models" }) = true := rfl
    rw [hc] at this
    exact absurd this (by simp [Except.isOk, Except.toBool])
  | ok o =>
    have h := C7_pk_field (fun s => s) [] (optionsInit none (PyVal.str "x"))
      { name := "MyDoc", module := "myapp.models" } o hc
    exact ⟨by simp [Except.map, h.1], rfl, rfl⟩


/-- C1 (amended): when no base is an instance of `DocumentMeta`, the
class is built by the parent metaclass alone, with no `Options` attached
and no registration; when some base is, a successful creation resolves
an app label, registers the newly constructed class exactly once under
it, and attaches an `Options` record as `_meta` via
`contribute_to_class` — and that record carries the resolved app label
provided the `Meta` does not explicitly bind `app_label` to `None` (in
that exceptional case `contribute_to_class` copies the `None` back over
the resolved label). -/
theorem C1_metaclass_hook {R C : Type} (gvn : String → String) (installedApps : List String)
    (L : LoadingApi R C) (superNew : ClassInput → C) (reg : R) (inp : ClassInput) :
    (inp.basesMeta.any (fun b => b) = false →
      documentMetaNew gvn installedApps L superNew reg inp
        = Except.ok { result := superNew inp, registry := reg, registrations := [],
                      newClass := superNew inp, attachedMeta := none, appLabel := none })
    ∧ (inp.basesMeta.any (fun b => b) = true →
      ∀ out, documentMetaNew gvn installedApps L superNew reg inp = Except.ok out →
        ∃ l opts,
          out.appLabel = some l
          ∧ out.attachedMeta = some opts
          ∧ out.registrations = [(l, out.newClass)]
          ∧ out.newClass = superNew inp
          ∧ (metaBindsAppLabelNone inp = false → opts.appLabel = l)) := by
  constructor
  · intro hno
    unfold documentMetaNew
    rw [if_pos hno]
  · intro hpar out h
    obtain ⟨l, opts, h1, h2, h3, h4, _, _, hctr, hres⟩ := documentMetaNew_ok_inv hpar h
    refine ⟨l, opts, h1, h4, ?_, h2, ?_⟩
    · rw [h3, h2]
    · intro hbind
      cases hcm : chosenMeta inp with
      | none =>
        rw [hcm] at hctr
        exact contributeToClass_ok_appLabel_keep (fun m2 hm2 => by cases hm2) hctr
      | some m =>
        rw [hcm] at hctr
        cases hg : m.getattr "app_label" with
        | none =>
          refine contributeToClass_ok_appLabel_keep ?_ hctr
          intro m2 hm2
          injection hm2 with hm2
          rw [← hm2]
          exact hg
        | some v =>
          have hml : metaAppLabel inp = v := by
            unfold metaAppLabel
            rw [hcm]
            dsimp only
            rw [hg]
            rfl
          have hvl : v = l := by
            rcases hres with ⟨hal, s, hidx, hls⟩ | ⟨hne, hle⟩
            · exfalso
              have hbt : metaBindsAppLabelNone inp = true := by
                unfold metaBindsAppLabelNone
                rw [hcm]
                dsimp only
                rw [hg, show v = PyVal.pynone from hml.symm.trans hal]
                rfl
              exact Bool.false_ne_true (hbind ▸ hbt)
            · rw [hle]
              exact hml.symm
          exact (contributeToClass_ok_appLabel_of_getattr hg hctr).trans hvl

theorem C1_counterexample :
    (documentMetaNew (fun s => s) [] exLoading exSuperNew [] exInpMetaNone).map
      (fun out => (out.appLabel, out.attachedMeta.map OptionsRec.appLabel,
        out.registrations.map Prod.fst))
      = Except.ok (some (PyVal.str "myapp"), some PyVal.pynone, [PyVal.str "myapp"])
    ∧ PyVal.pynone ≠ PyVal.str "myapp" :=
  ⟨rfl, by decide⟩

theorem C1_witness :
    documentMetaNew (fun s => s) [] exLoading exSuperNew [] exDocumentCreateInput
      = Except.ok { result := 7, registry := [], registrations := [], newClass := 7,
                    attachedMeta := none, appLabel := none }
    ∧ (documentMetaNew (fun s => s) [] exLoading exSuperNew [] exInpPlain).map
        (fun out => (out.appLabel, out.attachedMeta.map OptionsRec.appLabel,
          out.registrations.map Prod.fst, out.newClass))
      = Except.ok (some (PyVal.str "myapp"), some (PyVal.str "myapp"),
          [PyVal.str "myapp"], 7) := by
  constructor
  · exact (C1_metaclass_hook (fun s => s) [] exLoading exSuperNew []
      exDocumentCreateInput).1 rfl
  · cases hc : documentMetaNew (fun s => s) [] exLoading exSuperNew [] exInpPlain with
    | error e =>
      have hrfl : (documentMetaNew (fun s => s) [] exLoading exSuperNew [] exInpPlain).map
          (fun out => out.appLabel) = Except.ok (some (PyVal.str "myapp")) := rfl
      rw [hc] at hrfl
      exact absurd hrfl (by simp [Except.map])
    | ok out =>
      obtain ⟨l, opts, h1, h2, h3, h4, h5⟩ :=
        (C1_metaclass_hook (fun s => s) [] exLoading exSuperNew [] exInpPlain).2 rfl out hc
      have hl : l = PyVal.str "myapp" := by
        have hrfl : (documentMetaNew (fun s => s) [] exLoading exSuperNew [] exInpPlain).map
            (fun o => o.appLabel) = Except.ok (some (PyVal.str "myapp")) := rfl
        rw [hc] at hrfl
        simp only [Except.map] at hrfl
        injection hrfl with hrfl
        rw [h1] at hrfl
        injection hrfl
      subst hl
      have hopts := h5 (by decide)
      simp [Except.map, h1, h2, h3, h4, hopts, exSuperNew]

/-- C3: when the `Meta` chosen for the new class (from `attrs` when
present, else inherited) defines no non-`None` `app_label` — including
no `Meta` at all — the app label is the second-to-last dot-separated
component of the defining module name; otherwise it is the one given by
`Meta`. -/
theorem C3_app_label_resolution {R C : Type} (gvn : String → String)
    (installedApps : List String) (L : LoadingApi R C) (superNew : ClassInput → C)
    (reg : R) (inp : ClassInput) (out : MetaNewOut R C)
    (hpar : inp.basesMeta.any (fun b => b) = true)
    (h : documentMetaNew gvn installedApps L superNew reg inp = Except.ok out) :
    (metaAppLabel inp = PyVal.pynone →
      ∃ s, pyIndexFromEnd2 (splitOnDot inp.module) = some s
        ∧ out.appLabel = some (PyVal.str s))
    ∧ (metaAppLabel inp ≠ PyVal.pynone → out.appLabel = some (metaAppLabel inp)) := by
  obtain ⟨l, opts, h1, _, _, _, _, _, _, hres⟩ := documentMetaNew_ok_inv hpar h
  constructor
  · intro hal
    rcases hres with ⟨_, s, hidx, hls⟩ | ⟨hne, _⟩
    · exact ⟨s, hidx, by rw [h1, hls]⟩
    · exact absurd hal hne
  · intro hne
    rcases hres with ⟨hal, _⟩ | ⟨_, hle⟩
    · exact absurd hal hne
    · rw [h1, hle]

theorem C3_witness :
    (documentMetaNew (fun s => s) [] exLoading exSuperNew [] exInpPlain).map
      MetaNewOut.appLabel = Except.ok (some (PyVal.str "myapp")) := by
  cases hc : documentMetaNew (fun s => s) [] exLoading exSuperNew [] exInpPlain with
  | error e =>
    have hrfl : (documentMetaNew (fun s => s) [] exLoading exSuperNew [] exInpPlain).map
        (fun out => out.appLabel) = Except.ok (some (PyVal.str "myapp")) := rfl
    rw [hc] at hrfl
    exact absurd hrfl (by simp [Except.map])
  | ok out =>
    obtain ⟨s, hidx, hout⟩ := (C3_app_label_resolution (fun s => s) [] exLoading
      exSuperNew [] exInpPlain out rfl hc).1 (by decide)
    have hs : s = "myapp" := by
      have hval : pyIndexFromEnd2 (splitOnDot exInpPlain.module) = some "myapp" := by decide
      rw [hval] at hidx
      injection hidx with hidx
      exact hidx.symm
    subst hs
    simp [Except.map, hout]

/-- C9: for a registered document class, the value returned by
`DocumentMeta.__new__` is `get_schema(app_label, name)` applied to the
post-registration registry — which need not be the class object that was
just constructed and registered (witnessed by a registry whose
`get_schema` answers with a different object). -/
theorem C9_returns_registry_entry {R C : Type} (gvn : String → String)
    (installedApps : List String) (L : LoadingApi R C) (superNew : ClassInput → C)
    (reg : R) (inp : ClassInput) (out : MetaNewOut R C)
    (hpar : inp.basesMeta.any (fun b => b) = true)
    (h : documentMetaNew gvn installedApps L superNew reg inp = Except.ok out) :
    (∃ l, out.appLabel = some l
      ∧ out.newClass = superNew inp
      ∧ out.registry = L.registerSchema reg l out.newClass
      ∧ out.result = L.getSchema out.registry l inp.name)
    ∧ ((documentMetaNew (fun s => s) [] exLoading exSuperNew [] exInpPlain).map
        (fun o => (o.result, o.newClass)) = Except.ok (99, 7) ∧ (99 : Nat) ≠ 7) := by
  constructor
  · obtain ⟨l, opts, h1, h2, _, _, h5, h6, _, _⟩ := documentMetaNew_ok_inv hpar h
    refine ⟨l, h1, h2, ?_, ?_⟩
    · rw [h5, h2]
    · rw [h6, h5]
  · exact ⟨rfl, by decide⟩

theorem C9_witness :
    (documentMetaNew (fun s => s) [] exLoading exSuperNew [] exInpPlain).map
      (fun o => (o.appLabel, o.registry, o.result, o.newClass))
      = Except.ok (some (PyVal.str "myapp"), [(PyVal.str "myapp", 7)], 99, 7) := by
  cases hc : documentMetaNew (fun s => s) [] exLoading exSuperNew [] exInpPlain with
  | error e =>
    have hrfl : (documentMetaNew (fun s => s) [] exLoading exSuperNew [] exInpPlain).map
        (fun out => out.appLabel) = Except.ok (some (PyVal.str "myapp")) := rfl
    rw [hc] at hrfl
    exact absurd hrfl (by simp [Except.map])
  | ok out =>
    obtain ⟨⟨l, h1, h2, h3, h4⟩, _⟩ := C9_returns_registry_entry (fun s => s) []
      exLoading exSuperNew [] exInpPlain out rfl hc
    have hl : l = PyVal.str "myapp" := by
      have hrfl : (documentMetaNew (fun s => s) [] exLoading exSuperNew [] exInpPlain).map
          (fun o => o.appLabel) = Except.ok (some (PyVal.str "myapp")) := rfl
      rw [hc] at hrfl
      simp only [Except.map] at hrfl
      injection hrfl with hrfl
      rw [h1] at hrfl
      injection hrfl
    subst hl
    simp [Except.map, h1, h2, h3, h4, exLoading, exSuperNew]

/-- C8: the shim `Document` class is declared with base
`schema.Document` and `__metaclass__ = DocumentMeta`, so its creation —
and that of every subclass, whose metaclass is inherited — is governed
by `DocumentMeta`: subclass creation attaches `_meta` and registers the
class, while `Document` itself is built by the parent metaclass branch
of the hook. -/
theorem C8_document_class {R C : Type} (gvn : String → String) (installedApps : List String)
    (L : LoadingApi R C) (superNew : ClassInput → C) (reg : R) :
    effectiveMetaclass djangoDocumentDecl = PyMetaclass.documentMeta
    ∧ djangoDocumentDecl.baseNames = ["schema.Document"]
    ∧ (∀ subName, effectiveMetaclass (documentSubclassDecl subName)
        = PyMetaclass.documentMeta)
    ∧ (∀ inp : ClassInput,
        inp.basesMeta = (documentSubclassDecl inp.name).baseMetaclasses.map
          PyMetaclass.isDocumentMetaInstance →
        ∀ out, documentMetaNew gvn installedApps L superNew reg inp = Except.ok out →
          out.attachedMeta.isSome = true ∧ out.registrations.length = 1)
    ∧ documentMetaNew gvn installedApps L superNew reg exDocumentCreateInput
        = Except.ok { result := superNew exDocumentCreateInput, registry := reg,
                      registrations := [], newClass := superNew exDocumentCreateInput,
                      attachedMeta := none, appLabel := none } := by
  refine ⟨rfl, rfl, fun subName => rfl, ?_, ?_⟩
  · intro inp hbm out h
    have hpar : inp.basesMeta.any (fun b => b) = true := by
      rw [hbm]
      rfl
    obtain ⟨l, opts, _, _, h3, h4, _, _, _, _⟩ := documentMetaNew_ok_inv hpar h
    constructor
    · rw [h4]
      rfl
    · rw [h3]
      rfl
  · unfold documentMetaNew
    rw [if_pos (by rfl)]

theorem C8_witness :
    (documentMetaNew (fun s => s) [] exLoading exSuperNew [] exInpPlain).map
      (fun o => (o.attachedMeta.isSome, o.registrations.length)) = Except.ok (true, 1) := by
  cases hc : documentMetaNew (fun s => s) [] exLoading exSuperNew [] exInpPlain with
  | error e =>
    have hrfl : (documentMetaNew (fun s => s) [] exLoading exSuperNew [] exInpPlain).map
        (fun out => out.appLabel) = Except.ok (some (PyVal.str "myapp")) := rfl
    rw [hc] at hrfl
    exact absurd hrfl (by simp [Except.map])
  | ok out =>
    obtain ⟨hA, hB⟩ := (C8_document_class (fun s => s) [] exLoading exSuperNew
      []).2.2.2.1 exInpPlain rfl out hc
    simp [Except.map, hA, hB]
